import Mathlib

/-!
Verification development for the generic pipeline-execution engine of
auto_process_ngs (the pipeliner module: PipelineParam, PipelineCommand,
PipelineTask, Pipeline). The engine source is not shipped in this tree
(only its test suite and callers are), so every definition below is a
shallow model of the engine, built from the specification document; the
doc comment of each such definition records this.
-/

set_option maxRecDepth 100000

namespace Pipeliner

/-- A dynamic (Python-style) value: the engine is dynamically typed, so
task outputs, parameter values and coerced results all live in one
universe of values. -/
inductive PyVal where
  | none : PyVal
  | int (i : Int) : PyVal
  | str (s : String) : PyVal
  | bool (b : Bool) : PyVal
deriving DecidableEq, Repr

/-- Digits of a decimal string to a natural number. -/
def digitsToNat (ds : List Char) : Nat :=
  ds.foldl (fun a c => a * 10 + (c.toNat - 48)) 0

/-- Strip leading and trailing whitespace from a character list. -/
def trimChars (cs : List Char) : List Char :=
  ((cs.dropWhile Char.isWhitespace).reverse.dropWhile Char.isWhitespace).reverse

/-- Modelled from the spec: Python int(...) applied to a string
(the type-coercion function an int-typed PipelineParam applies at read
time).  Accepts an optionally signed run of decimal digits, possibly
surrounded by whitespace; anything else raises ValueError. -/
def pyIntOfString (s : String) : Except String Int :=
  let t := trimChars s.data
  let signAndDigits : Int × List Char :=
    match t with
    | '-' :: rest => (-1, rest)
    | '+' :: rest => (1, rest)
    | l => (1, l)
  if signAndDigits.2 ≠ [] ∧ signAndDigits.2.all Char.isDigit then
    Except.ok (signAndDigits.1 * (digitsToNat signAndDigits.2 : Int))
  else
    Except.error ("ValueError: invalid literal for int: " ++ s)

/-- Modelled from the spec: the coercion function `int` usable as the
`type` argument of a PipelineParam. -/
def pyInt : PyVal → Except String PyVal
  | PyVal.int i => Except.ok (PyVal.int i)
  | PyVal.str s => (pyIntOfString s).map PyVal.int
  | PyVal.bool b => Except.ok (PyVal.int (if b then 1 else 0))
  | v => Except.error ("TypeError: int() argument invalid: " ++ toString (repr v))

/-- Modelled from the spec: the coercion function `str`. -/
def pyStr : PyVal → Except String PyVal
  | PyVal.str s => Except.ok (PyVal.str s)
  | PyVal.int i => Except.ok (PyVal.str (toString i))
  | PyVal.bool b => Except.ok (PyVal.str (if b then "True" else "False"))
  | v => Except.ok (PyVal.str (toString (repr v)))

/-- Modelled from the spec: `PipelineParam` (spec section 4.1), the
missing engine class.  A deferred, optionally typed value cell: it holds
a raw value (or a zero-argument default producer), an optional
type-coercion function and an optional name. -/
structure PipelineParam where
  value_raw : Option PyVal := Option.none
  type : Option (PyVal → Except String PyVal) := Option.none
  default : Option (Unit → PyVal) := Option.none
  name : Option String := Option.none

/-- Modelled from the spec: `PipelineParam.set` overwrites the raw value
at any time and never raises (it performs no coercion). -/
def PipelineParam.set (p : PipelineParam) (v : PyVal) : PipelineParam :=
  { p with value_raw := Option.some v }

/-- Modelled from the spec: the `value` getter.  It resolves the raw
value (consulting the default producer only while no explicit value was
set), then lazily applies the coercion function, raising (returning an
error) only at read time.  A still-unset value (Python None) skips
coercion. -/
def PipelineParam.value (p : PipelineParam) : Except String PyVal :=
  let raw : PyVal :=
    match p.value_raw with
    | Option.some v => v
    | Option.none =>
      match p.default with
      | Option.some d => d ()
      | Option.none => PyVal.none
  match raw, p.type with
  | PyVal.none, _ => Except.ok PyVal.none
  | v, Option.some f => f v
  | v, Option.none => Except.ok v

/-- Modelled from the spec: `Command` (spec sections 2 and 4.2): an
argument vector plus a human-readable lead word; renders to a plain
string and to a shell-safe string (arguments containing whitespace are
single-quoted). -/
structure Command where
  command : String
  args : List String

/-- Plain rendering (Python str(command)): words joined by blanks. -/
def Command.str (c : Command) : String :=
  String.intercalate " " (c.command :: c.args)

/-- Shell-safe quoting of one argument: an argument containing a blank
is wrapped in single quotes. -/
def shellQuoteArg (s : String) : String :=
  if s.data.any (fun c => c = ' ') then "\x27" ++ s ++ "\x27" else s

/-- Shell-safe rendering of the whole command line. -/
def Command.command_line (c : Command) : String :=
  String.intercalate " " (c.command :: c.args.map shellQuoteArg)

/-- Modelled from the spec: the byte-exact wrapper-script template of
spec section 4.2.  `--login` is appended to the shebang only when the
environment-module list is non-empty; one `module load` line per module,
in the given order, goes immediately before the rendered command line.
The script carries no trailing newline. -/
def makeWrapperScriptText (name : String) (commandLine : String)
    (envmodules : List String) : String :=
  String.intercalate "\n"
    ([ "#!/bin/bash" ++ (if envmodules.isEmpty then "" else " --login"),
       "echo \"#### COMMAND " ++ name ++ "\"",
       "echo \"#### HOSTNAME $HOSTNAME\"",
       "echo \"#### USER $USER\"",
       "echo \"#### START $(date)\"" ]
     ++ envmodules.map (fun m => "module load " ++ m)
     ++ [ commandLine,
          "exit_code=$?",
          "echo \"#### END $(date)\"",
          "echo \"#### EXIT_CODE $exit_code\"",
          "exit $exit_code" ])

/-- Modelled from the spec: a `PipelineCommand` instance (spec section
4.2): a concrete command type stores its parameters in `init` and
returns a rendered `Command` from `cmd()`; `name_str` is the class name
used on the provenance COMMAND line. -/
structure PipelineCommand where
  name_str : String
  cmd : Command

/-- The lower-cased identifier the engine derives from the class name. -/
def PipelineCommand.name (p : PipelineCommand) : String :=
  p.name_str.toLower

/-- Modelled from the spec: `make_wrapper_script` writes the wrapper
script text for this command into the scripts directory; we model the
text that is written. -/
def PipelineCommand.make_wrapper_script (p : PipelineCommand)
    (envmodules : List String) : String :=
  makeWrapperScriptText p.name_str p.cmd.command_line envmodules

/-- The EchoCmd subclass of the wrapper-script scenario: `cmd()` renders
`echo hello there`. -/
def EchoCmd : PipelineCommand :=
  { name_str := "EchoCmd", cmd := { command := "echo", args := ["hello there"] } }

/-! ## The task / scheduling model

Modelled from the spec (sections 3, 4.3, 4.5, 5): tasks are the units of
work; the Pipeline driver is a single-threaded polling loop that
repeatedly scans for tasks whose dependency set is fully resolved and
submits all such tasks at once.  The external runner is out of scope, so
in the model a submitted task completes within the polling iteration in
which it was submitted, with its deferred inputs resolved from the state
at submission time. -/

/-- Outcome of the setup/execution phase of a task: normal completion
with an output value, explicit failure via `fail(exit_code)`, or an
exception raised inside `setup()`. -/
inductive MResult (α : Type) where
  | ok (out : α) : MResult α
  | failed (ec : Nat) : MResult α
  | raised (msg : String) : MResult α

/-- Modelled from the spec: a task (spec section 4.3) as the scheduler
sees it: a unique id, the construction-time default of its output
namespace, and the setup behaviour, which receives the pipeline
parameter environment and the (deferred, resolved only now) outputs of
the other tasks. -/
structure MTask (α : Type) where
  id : Nat
  defaultOut : α
  setup : (String → PyVal) → (Nat → α) → MResult α

/-- A pipeline dependency graph: each registered task paired with the
ids of the tasks it requires. -/
abbrev MGraph (α : Type) : Type := List (MTask α × List Nat)

/-- Per-task run-time state: the `completed` flag, the `exit_code`
(unset while the task has not completed) and the current value of the
output namespace (the construction default until the task runs). -/
structure TaskState (α : Type) where
  completed : Bool
  exit_code : Option Nat
  output : α
deriving DecidableEq

/-- Modelled from the spec: the failure-propagation policies of
`Pipeline.run` (spec section 4.5). -/
inductive PipelineFailure where
  | IMMEDIATE : PipelineFailure
  | DEFERRED : PipelineFailure
deriving DecidableEq

/-- Initial state: no task has completed, no exit code is set, every
output holds its construction default. -/
def initState {α : Type} [Inhabited α] (g : MGraph α) : Nat → TaskState α :=
  fun i =>
    match g.find? (fun p => p.1.id == i) with
    | Option.some p => ⟨false, Option.none, p.1.defaultOut⟩
    | Option.none => ⟨false, Option.none, default⟩

/-- Does this exit code record a failure? (Unset means not run, not
failure.) -/
def isFailure : Option Nat → Bool
  | Option.some ec => ec != 0
  | Option.none => false

/-- Some registered task has completed with a non-zero exit code. -/
def anyFailed {α : Type} (g : MGraph α) (st : Nat → TaskState α) : Bool :=
  g.any (fun p => isFailure (st p.1.id).exit_code)

/-- All dependencies of a task have completed successfully. -/
def depsOK {α : Type} (st : Nat → TaskState α) (deps : List Nat) : Bool :=
  deps.all (fun d => (st d).exit_code == Option.some 0)

/-- A task is ready for submission: not yet completed, and every
dependency completed with exit code 0. -/
def readyB {α : Type} (st : Nat → TaskState α) (p : MTask α × List Nat) : Bool :=
  !(st p.1.id).completed && depsOK st p.2

/-- Run one task to completion: a raised exception is caught and
converted into exit code 1; explicit failure records the given exit
code and leaves the output at its default. -/
def execTask {α : Type} (t : MTask α) (params : String → PyVal)
    (outs : Nat → α) : TaskState α :=
  match t.setup params outs with
  | MResult.ok out => ⟨true, Option.some 0, out⟩
  | MResult.failed ec => ⟨true, Option.some ec, t.defaultOut⟩
  | MResult.raised _ => ⟨true, Option.some 1, t.defaultOut⟩

/-- Modelled from the spec: one polling iteration of the driver loop
(spec section 5).  Under IMMEDIATE, once any task has reported a
non-zero exit code nothing further is submitted.  Otherwise every ready
task is submitted at once, each resolving its deferred inputs from the
state at submission time. -/
def stepWave {α : Type} (pol : PipelineFailure) (g : MGraph α)
    (params : String → PyVal) (st : Nat → TaskState α) : Nat → TaskState α :=
  if pol = PipelineFailure.IMMEDIATE ∧ anyFailed g st then st
  else fun i =>
    match (g.filter (readyB st)).find? (fun p => p.1.id == i) with
    | Option.some p => execTask p.1 params (fun d => (st d).output)
    | Option.none => st i

/-- The driver state after `n` polling iterations. -/
def runStates {α : Type} [Inhabited α] (pol : PipelineFailure) (g : MGraph α)
    (params : String → PyVal) : Nat → (Nat → TaskState α)
  | 0 => initState g
  | n + 1 => stepWave pol g params (runStates pol g params n)

/-- Overall pipeline exit status: 0 only when every registered task
completed with exit code 0, else 1. -/
def overallExit {α : Type} (g : MGraph α) (st : Nat → TaskState α) : Int :=
  if g.all (fun p => (st p.1.id).exit_code == Option.some 0) then 0 else 1

/-- Modelled from the spec: `Pipeline.run` over an already-assembled
graph: iterate the polling loop (as many iterations as there are tasks
is always enough for the model, where a submitted task completes within
its iteration) and return the final states with the integer exit
status.  It is a total function: ordinary task failure never raises. -/
def runPipeline {α : Type} [Inhabited α] (pol : PipelineFailure) (g : MGraph α)
    (params : String → PyVal) : (Nat → TaskState α) × Int :=
  let final := runStates pol g params g.length
  (final, overallExit g final)

/-! ## The Pipeline registry -/

/-- Modelled from the spec: the Pipeline container (spec sections 3 and
4.5): an append-only registry of tasks with dependency edges, a
parameter registry, a runner-slot registry and an environment-module
slot registry. -/
structure MPipeline (α : Type) where
  tasks : MGraph α
  params : List (String × PipelineParam)
  runners : List String
  envmodules : List String

/-- Modelled from the spec: a freshly constructed Pipeline, which
already carries the built-in parameters WORKING_DIR, BATCH_SIZE and
VERBOSE. -/
def Pipeline.new {α : Type} : MPipeline α :=
  { tasks := []
    params := [("WORKING_DIR", {}), ("BATCH_SIZE", {}), ("VERBOSE", {})]
    runners := []
    envmodules := [] }

/-- The registered parameter names. -/
def MPipeline.paramNames {α : Type} (ppl : MPipeline α) : List String :=
  ppl.params.map Prod.fst

/-- Modelled from the spec: `add_param(name, value, type)` appends a
named parameter slot and raises a KeyError when the name is already
registered. -/
def MPipeline.add_param {α : Type} (ppl : MPipeline α) (name : String)
    (value : Option PyVal) (type : Option (PyVal → Except String PyVal)) :
    Except String (MPipeline α) :=
  if ppl.paramNames.contains name then
    Except.error ("KeyError: \x27" ++ name ++ "\x27 already defined")
  else
    Except.ok { ppl with
      params := ppl.params ++ [(name, { value_raw := value, type := type,
                                        default := Option.none,
                                        name := Option.some name })] }

/-- Modelled from the spec: `add_runner(name)` appends a named runner
slot and raises a KeyError on duplicate registration. -/
def MPipeline.add_runner {α : Type} (ppl : MPipeline α) (name : String) :
    Except String (MPipeline α) :=
  if ppl.runners.contains name then
    Except.error ("KeyError: \x27" ++ name ++ "\x27 already defined")
  else
    Except.ok { ppl with runners := ppl.runners ++ [name] }

/-- Modelled from the spec: `add_envmodules(name)` appends a named
environment-module slot and raises a KeyError on duplicate
registration. -/
def MPipeline.add_envmodules {α : Type} (ppl : MPipeline α) (name : String) :
    Except String (MPipeline α) :=
  if ppl.envmodules.contains name then
    Except.error ("KeyError: \x27" ++ name ++ "\x27 already defined")
  else
    Except.ok { ppl with envmodules := ppl.envmodules ++ [name] }

/-- The raw value a parameter currently holds (the default producer is
consulted while nothing was set). -/
def paramRaw (p : PipelineParam) : PyVal :=
  match p.value_raw with
  | Option.some v => v
  | Option.none =>
    match p.default with
    | Option.some d => d ()
    | Option.none => PyVal.none

/-- Look a pipeline parameter value up by name. -/
def MPipeline.paramValue {α : Type} (ppl : MPipeline α) (n : String) : PyVal :=
  match ppl.params.find? (fun q => q.1 == n) with
  | Option.some q => paramRaw q.2
  | Option.none => PyVal.none

/-- Modelled from the spec: `Pipeline.run(working_dir, batch_size,
verbose, exit_on_failure)`: the built-in parameters are set from the
run arguments, then the polling driver executes the graph. -/
def MPipeline.run {α : Type} [Inhabited α] (ppl : MPipeline α)
    (pol : PipelineFailure) (working_dir : String) (batch_size : Int)
    (verbose : Bool) : (Nat → TaskState α) × Int :=
  let penv : String → PyVal := fun n =>
    if n = "WORKING_DIR" then PyVal.str working_dir
    else if n = "BATCH_SIZE" then PyVal.int batch_size
    else if n = "VERBOSE" then PyVal.bool verbose
    else ppl.paramValue n
  runPipeline pol ppl.tasks penv

/-- Ids of the dependency-free (root) tasks of a pipeline. -/
def MPipeline.rootTaskIds {α : Type} (ppl : MPipeline α) : List Nat :=
  (ppl.tasks.filter (fun p => p.2.isEmpty)).map (fun p => p.1.id)

/-- Ids of the terminal tasks of a pipeline: tasks that no other task
of the pipeline depends on. -/
def MPipeline.terminalTaskIds {α : Type} (ppl : MPipeline α) : List Nat :=
  (ppl.tasks.filter
    (fun p => !(ppl.tasks.any (fun q => q.2.contains p.1.id)))).map
    (fun p => p.1.id)

/-- The requirement list a pipeline records for a task id. -/
def MPipeline.taskRequires {α : Type} (ppl : MPipeline α) (i : Nat) :
    Option (List Nat) :=
  (ppl.tasks.find? (fun p => p.1.id == i)).map (fun p => p.2)

/-- Modelled from the spec: `merge_pipeline(other)` imports all of the
other pipeline's tasks, params, runners and environment-module slots,
without adding any new dependency edges. -/
def MPipeline.merge_pipeline {α : Type} (a b : MPipeline α) : MPipeline α :=
  { tasks := a.tasks ++ b.tasks
    params := a.params ++ b.params
    runners := a.runners ++ b.runners
    envmodules := a.envmodules ++ b.envmodules }

/-- Modelled from the spec: `append_pipeline(other)` performs the same
slot import, and additionally makes every dependency-free (root) task of
the other pipeline depend on every terminal task of this one. -/
def MPipeline.append_pipeline {α : Type} (a b : MPipeline α) : MPipeline α :=
  { tasks := a.tasks ++ b.tasks.map
      (fun p => if p.2.isEmpty then (p.1, a.terminalTaskIds) else p)
    params := a.params ++ b.params
    runners := a.runners ++ b.runners
    envmodules := a.envmodules ++ b.envmodules }

/-! ## rank_tasks -/

/-- The tasks that can enter the next rank: not yet assigned, and all
dependencies already assigned. -/
def nextRank (g : List (Nat × List Nat)) (assigned : List Nat) : List Nat :=
  (g.filter (fun p =>
    !(assigned.contains p.1) && p.2.all (fun d => assigned.contains d))).map
    Prod.fst

/-- Worker for `rank_tasks`: peel off ranks while any task is ready. -/
def rankTasksAux (g : List (Nat × List Nat)) : Nat → List Nat → List (List Nat)
  | 0, _ => []
  | fuel + 1, assigned =>
    if (nextRank g assigned).isEmpty then []
    else nextRank g assigned
      :: rankTasksAux g fuel (assigned ++ nextRank g assigned)

/-- Modelled from the spec: `rank_tasks()` (spec section 4.5) partitions
the tasks into ranks: rank 0 holds every task with no dependency, and
rank k holds every task whose dependencies are all satisfied by ranks
below k with at least one dependency in rank k-1. -/
def rank_tasks (g : List (Nat × List Nat)) : List (List Nat) :=
  rankTasksAux g g.length []

/-- The rank assigned to a task id: index of the first rank containing
it. -/
def rankOf (ranks : List (List Nat)) (i : Nat) : Option Nat :=
  match ranks with
  | [] => Option.none
  | r :: rest => if r.contains i then Option.some 0 else (rankOf rest i).map (· + 1)

/-- The id/requirement dependency graph of a pipeline. -/
def MPipeline.depGraph {α : Type} (ppl : MPipeline α) : List (Nat × List Nat) :=
  ppl.tasks.map (fun p => (p.1.id, p.2))

/-- `rank_tasks` on a pipeline works on the id/requirement graph. -/
def MPipeline.rank_tasks {α : Type} (ppl : MPipeline α) : List (List Nat) :=
  Pipeliner.rank_tasks ppl.depGraph

/-! ## Task construction -/

/-- A constructed task object: the bound arguments and the output
namespace produced by `init`. -/
structure TaskObj (α : Type) where
  args : List PyVal
  outputs : α

/-- Modelled from the spec: Task construction (spec section 4.3) binds
the arguments and immediately invokes `init`; an exception from `init`
propagates synchronously out of the constructor and is never
swallowed. -/
def constructTask {α : Type} (args : List PyVal)
    (init : List PyVal → Except String α) : Except String (TaskObj α) :=
  match init args with
  | Except.ok out => Except.ok { args := args, outputs := out }
  | Except.error e => Except.error e

/-! ## Concrete scenario fixtures -/

/-- An Append task of the test scenarios: output defaults to the empty
list; setup resolves the (deferred) source output and appends one
string. -/
def appendTask (i : Nat) (src : Option Nat) (s : String) : MTask (List String) :=
  { id := i
    defaultOut := []
    setup := fun _ outs =>
      MResult.ok ((match src with
        | Option.some j => outs j
        | Option.none => []) ++ [s]) }

/-- A task that calls `fail()` from `setup`, with exit code 1. -/
def failTask (i : Nat) : MTask (List String) :=
  { id := i, defaultOut := [], setup := fun _ _ => MResult.failed 1 }

/-- The failure-scenario graph: T1 with no dependency, failing T2
depending on T1, T3 depending on T2, independent branch T4 depending on
T1. -/
def failScenario : MGraph (List String) :=
  [(appendTask 1 Option.none "1", []),
   (failTask 2, [1]),
   (appendTask 3 (Option.some 2) "3", [2]),
   (appendTask 4 (Option.some 1) "4", [1])]

/-- An empty parameter environment. -/
def noParams : String → PyVal := fun _ => PyVal.none

/-- A task whose setup raises an exception (the RaisesException task of
the test scenarios). -/
def raisingTask : MTask (List String) :=
  { id := 7, defaultOut := [], setup := fun _ _ => MResult.raised "Exception is raised" }

/-- A one-task graph whose only task raises from setup. -/
def raisingScenario : MGraph (List String) := [(raisingTask, [])]

/-- The OutputValues task of the built-in parameter scenario: it
records the values of the three built-in pipeline parameters it
observes during its execution. -/
def outputValuesTask : MTask (List PyVal) :=
  { id := 1
    defaultOut := []
    setup := fun penv _ =>
      MResult.ok [penv "WORKING_DIR", penv "BATCH_SIZE", penv "VERBOSE"] }

/-- A fresh pipeline carrying only the OutputValues task. -/
def builtinScenario : MPipeline (List PyVal) :=
  { (Pipeline.new : MPipeline (List PyVal)) with tasks := [(outputValuesTask, [])] }

/-- The invariant tying `completed` and `exit_code` together: while a
task has not completed its exit code is unset, and once it has
completed a concrete exit code is recorded. -/
def StateInv {α : Type} (st : Nat → TaskState α) : Prop :=
  ∀ i, ((st i).completed = false → (st i).exit_code = Option.none)
     ∧ ((st i).completed = true → ∃ ec, (st i).exit_code = Option.some ec)

/-- The ranking scenario pipeline of the test suite: task 1 with no
dependency, tasks 2 and 3 depending on task 1, task 4 depending on
task 3. -/
def rankScenario : MPipeline (List String) :=
  { tasks := [(appendTask 1 Option.none "item1", []),
              (appendTask 2 (Option.some 1) "item2", [1]),
              (appendTask 3 (Option.some 1) "item3", [1]),
              (appendTask 4 (Option.some 3) "item4", [3])]
    params := []
    runners := []
    envmodules := [] }

/-- Pipeline A of the composition scenario: a1 with no dependency and
a2 depending on a1. -/
def pipelineA : MPipeline (List String) :=
  { tasks := [(appendTask 1 Option.none "a1", []),
              (appendTask 2 (Option.some 1) "a2", [1])]
    params := [("param1", {})]
    runners := ["runner1"]
    envmodules := [] }

/-- Pipeline B of the composition scenario: the single root task b1. -/
def pipelineB : MPipeline (List String) :=
  { tasks := [(appendTask 3 Option.none "b1", [])]
    params := [("param2", {})]
    runners := ["runner2"]
    envmodules := [] }



/-! ## Helper lemmas about the driver loop -/

theorem execTask_state {α : Type} (t : MTask α) (params : String → PyVal)
    (outs : Nat → α) :
    (execTask t params outs).completed = true
    ∧ ∃ ec, (execTask t params outs).exit_code = Option.some ec := by
  cases ht : t.setup params outs <;> simp [execTask, ht]

theorem find?_ready_none_of_completed {α : Type} (g : MGraph α)
    (st : Nat → TaskState α) (i : Nat) (h : (st i).completed = true) :
    (g.filter (readyB st)).find? (fun p => p.1.id == i) = Option.none := by
  cases hf : (g.filter (readyB st)).find? (fun p => p.1.id == i) with
  | none => rfl
  | some p =>
    exfalso
    have hpi := List.find?_some hf
    have hmem : p ∈ g.filter (readyB st) := List.mem_of_find?_eq_some hf
    have hready : readyB st p = true := List.of_mem_filter hmem
    have hnc : (st p.1.id).completed = false := by
      simp only [readyB, Bool.and_eq_true, Bool.not_eq_true'] at hready
      exact hready.1
    have hpi2 : p.1.id = i := by simpa using hpi
    rw [hpi2, h] at hnc
    simp at hnc

theorem stepWave_fix_of_completed {α : Type} (pol : PipelineFailure)
    (g : MGraph α) (params : String → PyVal) (st : Nat → TaskState α) (i : Nat)
    (h : (st i).completed = true) :
    stepWave pol g params st i = st i := by
  unfold stepWave
  split
  · rfl
  · simp only [find?_ready_none_of_completed g st i h]

theorem runStates_zero {α : Type} [Inhabited α] (pol : PipelineFailure)
    (g : MGraph α) (params : String → PyVal) (i : Nat) :
    (runStates pol g params 0 i).completed = false
    ∧ (runStates pol g params 0 i).exit_code = Option.none := by
  show (initState g i).completed = false ∧ (initState g i).exit_code = Option.none
  unfold initState
  split <;> exact ⟨rfl, rfl⟩

theorem stepWave_inv {α : Type} (pol : PipelineFailure) (g : MGraph α)
    (params : String → PyVal) (st : Nat → TaskState α) (h : StateInv st) :
    StateInv (stepWave pol g params st) := by
  intro i
  unfold stepWave
  split
  · exact h i
  · cases hf : (g.filter (readyB st)).find? (fun p => p.1.id == i) with
    | none => simpa only [hf] using h i
    | some p =>
      simp only [hf]
      have he := execTask_state p.1 params (fun d => (st d).output)
      exact ⟨fun hc => absurd he.1 (by simp [hc]), fun _ => he.2⟩

theorem runStates_inv {α : Type} [Inhabited α] (pol : PipelineFailure)
    (g : MGraph α) (params : String → PyVal) :
    ∀ n, StateInv (runStates pol g params n)
  | 0 => fun i =>
    ⟨fun _ => (runStates_zero pol g params i).2,
     fun hc => by
       have h0 := (runStates_zero pol g params i).1
       rw [hc] at h0
       simp at h0⟩
  | n + 1 => stepWave_inv pol g params _ (runStates_inv pol g params n)

theorem runStates_fix {α : Type} [Inhabited α] (pol : PipelineFailure)
    (g : MGraph α) (params : String → PyVal) (n i : Nat)
    (h : (runStates pol g params n i).completed = true) :
    ∀ m, n ≤ m → runStates pol g params m i = runStates pol g params n i := by
  intro m hm
  induction m, hm using Nat.le_induction with
  | base => rfl
  | succ m hm ih =>
    show stepWave pol g params (runStates pol g params m) i = _
    rw [stepWave_fix_of_completed pol g params _ i (by rw [ih]; exact h), ih]

theorem stepWave_immediate_frozen {α : Type} (g : MGraph α)
    (params : String → PyVal) (st : Nat → TaskState α)
    (h : anyFailed g st = true) :
    stepWave PipelineFailure.IMMEDIATE g params st = st := by
  unfold stepWave
  rw [if_pos ⟨rfl, h⟩]

theorem runStates_immediate_frozen {α : Type} [Inhabited α] (g : MGraph α)
    (params : String → PyVal) (n : Nat)
    (h : anyFailed g (runStates PipelineFailure.IMMEDIATE g params n) = true) :
    ∀ m, n ≤ m → runStates PipelineFailure.IMMEDIATE g params m
      = runStates PipelineFailure.IMMEDIATE g params n := by
  intro m hm
  induction m, hm using Nat.le_induction with
  | base => rfl
  | succ m hm ih =>
    show stepWave PipelineFailure.IMMEDIATE g params
      (runStates PipelineFailure.IMMEDIATE g params m) = _
    rw [ih, stepWave_immediate_frozen g params _ h]

/-! ## Claim theorems -/

/-- Claim C1: for the PipelineCommand subclass EchoCmd, whose cmd()
renders `echo hello there`, make_wrapper_script with no environment
modules emits byte-for-byte the script template of spec section 4.2
(shebang with no --login, the four provenance echo lines, the rendered
command line, exit_code capture, END and EXIT_CODE echo lines, final
exit); with a non-empty envmodules sequence, ` --login` is appended to
the shebang and one `module load` line per module is inserted, in the
given order, immediately before the command line. -/
theorem claim_wrapper_script :
    EchoCmd.cmd.str = "echo hello there"
    ∧ EchoCmd.make_wrapper_script [] =
      "#!/bin/bash\n" ++
      "echo \"#### COMMAND EchoCmd\"\n" ++
      "echo \"#### HOSTNAME $HOSTNAME\"\n" ++
      "echo \"#### USER $USER\"\n" ++
      "echo \"#### START $(date)\"\n" ++
      "echo \x27hello there\x27\n" ++
      "exit_code=$?\n" ++
      "echo \"#### END $(date)\"\n" ++
      "echo \"#### EXIT_CODE $exit_code\"\n" ++
      "exit $exit_code"
    ∧ EchoCmd.make_wrapper_script
        ["apps/fastq-screen/0.13.0", "apps/fastqc/0.11.8"] =
      "#!/bin/bash --login\n" ++
      "echo \"#### COMMAND EchoCmd\"\n" ++
      "echo \"#### HOSTNAME $HOSTNAME\"\n" ++
      "echo \"#### USER $USER\"\n" ++
      "echo \"#### START $(date)\"\n" ++
      "module load apps/fastq-screen/0.13.0\n" ++
      "module load apps/fastqc/0.11.8\n" ++
      "echo \x27hello there\x27\n" ++
      "exit_code=$?\n" ++
      "echo \"#### END $(date)\"\n" ++
      "echo \"#### EXIT_CODE $exit_code\"\n" ++
      "exit $exit_code" :=
  ⟨rfl, rfl, rfl⟩

/-- Claim C2: under DEFERRED failure handling, in the graph T1→T2→T3
with independent branch T1→T4 and T2 calling fail() in setup, the run
leaves T1 with exit code 0, T2 with a non-zero exit code, T3 never
submitted (not completed, exit code unset, outputs at construction
defaults), T4 run to completion with exit code 0 and its output
computed, and the overall run status is non-zero. -/
theorem claim_deferred_failure :
    ((runPipeline PipelineFailure.DEFERRED failScenario noParams).1 1).exit_code
      = Option.some 0
    ∧ isFailure
        ((runPipeline PipelineFailure.DEFERRED failScenario noParams).1 2).exit_code
      = true
    ∧ ((runPipeline PipelineFailure.DEFERRED failScenario noParams).1 3).completed
      = false
    ∧ ((runPipeline PipelineFailure.DEFERRED failScenario noParams).1 3).exit_code
      = Option.none
    ∧ ((runPipeline PipelineFailure.DEFERRED failScenario noParams).1 3).output = []
    ∧ ((runPipeline PipelineFailure.DEFERRED failScenario noParams).1 4).completed
      = true
    ∧ ((runPipeline PipelineFailure.DEFERRED failScenario noParams).1 4).exit_code
      = Option.some 0
    ∧ ((runPipeline PipelineFailure.DEFERRED failScenario noParams).1 4).output
      = ["1", "4"]
    ∧ (runPipeline PipelineFailure.DEFERRED failScenario noParams).2 ≠ 0 := by
  decide

/-- Claim C5: a Parameter typed int coerces lazily: set("123") followed
by a read of value yields the integer 123; set("abc") itself succeeds
(set is a total operation that records the raw value, never raising)
and only the subsequent read of value raises the type error. -/
theorem claim_param_lazy_coercion :
    (((({ type := Option.some pyInt } : PipelineParam).set
        (PyVal.str "123")).value) = Except.ok (PyVal.int 123))
    ∧ ((({ type := Option.some pyInt } : PipelineParam).set
        (PyVal.str "abc")).value_raw = Option.some (PyVal.str "abc"))
    ∧ (∃ e, (({ type := Option.some pyInt } : PipelineParam).set
        (PyVal.str "abc")).value = Except.error e)
    ∧ (∀ (q : PipelineParam) (v : PyVal),
        (q.set v).value_raw = Option.some v) :=
  ⟨rfl, rfl, ⟨_, rfl⟩, fun _ _ => rfl⟩

/-- Claim C8: for every task, every policy and every execution path,
the completed flag starts false, transitions to true at most once and
never back (once completed, the task state never changes again), the
exit code is unset at all times before completed becomes true, and a
concrete exit code is recorded exactly at completion. -/
theorem claim_completed_monotone {α : Type} [Inhabited α]
    (pol : PipelineFailure) (g : MGraph α) (params : String → PyVal)
    (n i : Nat) :
    (runStates pol g params 0 i).completed = false
    ∧ ((runStates pol g params n i).completed = false →
        (runStates pol g params n i).exit_code = Option.none)
    ∧ ((runStates pol g params n i).completed = true →
        ∃ ec, (runStates pol g params n i).exit_code = Option.some ec)
    ∧ ((runStates pol g params n i).completed = true →
        ∀ m, n ≤ m → runStates pol g params m i = runStates pol g params n i) :=
  ⟨(runStates_zero pol g params i).1,
   (runStates_inv pol g params n i).1,
   (runStates_inv pol g params n i).2,
   fun h => runStates_fix pol g params n i h⟩

/-- Witness for claim C8 at a concrete input: in the deferred failure
scenario, after two polling iterations task 2 has completed, so the
theorem yields its concrete exit code and the freezing of its state. -/
theorem claim_completed_monotone_witness :
    ∃ ec, (runStates PipelineFailure.DEFERRED failScenario noParams 2 2).exit_code
      = Option.some ec :=
  (claim_completed_monotone PipelineFailure.DEFERRED failScenario
    noParams 2 2).2.2.1 (by decide)

/-- Claim C3: under IMMEDIATE failure handling, once any task reports a
non-zero exit code nothing not yet submitted is ever submitted
afterwards (the driver state never changes again); in the concrete
T1→T2→T3 / T1→T4 graph with T2 failing, T3 is never submitted, remains
with exit code unset and outputs at construction defaults, and the run
returns a non-zero status. -/
theorem claim_immediate_no_submission :
    (∀ (α : Type) (ia : Inhabited α) (g : MGraph α) (params : String → PyVal)
        (n m : Nat), n ≤ m →
        anyFailed g (@runStates α ia PipelineFailure.IMMEDIATE g params n) = true →
        ∀ i, @runStates α ia PipelineFailure.IMMEDIATE g params m i
           = @runStates α ia PipelineFailure.IMMEDIATE g params n i)
    ∧ ((runPipeline PipelineFailure.IMMEDIATE failScenario noParams).1 3).completed
      = false
    ∧ ((runPipeline PipelineFailure.IMMEDIATE failScenario noParams).1 3).exit_code
      = Option.none
    ∧ ((runPipeline PipelineFailure.IMMEDIATE failScenario noParams).1 3).output = []
    ∧ (runPipeline PipelineFailure.IMMEDIATE failScenario noParams).2 ≠ 0 := by
  refine ⟨?_, by decide, by decide, by decide, by decide⟩
  intro α ia g params n m hm hf i
  rw [runStates_immediate_frozen g params n hf m hm]

/-- Witness for claim C3 at a concrete input: in the immediate failure
scenario a failure is visible after two iterations, so iteration three
changes nothing. -/
theorem claim_immediate_no_submission_witness :
    runStates PipelineFailure.IMMEDIATE failScenario noParams 3 3
      = runStates PipelineFailure.IMMEDIATE failScenario noParams 2 3 :=
  claim_immediate_no_submission.1 (List String) inferInstance failScenario
    noParams 2 3 (by decide) (by decide) 3

/-- Claim C7: an exception raised by init at construction propagates
synchronously out of the Task constructor and is never swallowed,
whereas an exception raised inside setup during execution is caught and
converted into a non-zero exit code for that task; the pipeline run is
a total function returning an integer status, and in the concrete
raising scenario it returns 1 with the task completed with exit code
1. -/
theorem claim_exception_propagation :
    (∀ (α : Type) (args : List PyVal) (ini : List PyVal → Except String α)
        (e : String), ini args = Except.error e →
        constructTask args ini = Except.error e)
    ∧ (∀ (α : Type) (t : MTask α) (params : String → PyVal) (outs : Nat → α)
        (msg : String), t.setup params outs = MResult.raised msg →
        execTask t params outs = ⟨true, Option.some 1, t.defaultOut⟩)
    ∧ ((runPipeline PipelineFailure.DEFERRED raisingScenario noParams).1 7).completed
      = true
    ∧ ((runPipeline PipelineFailure.DEFERRED raisingScenario noParams).1 7).exit_code
      = Option.some 1
    ∧ (runPipeline PipelineFailure.DEFERRED raisingScenario noParams).2 = 1 := by
  refine ⟨?_, ?_, by decide, by decide, by decide⟩
  · intro α args ini e h
    unfold constructTask
    rw [h]
  · intro α t params outs msg h
    unfold execTask
    rw [h]

/-- Witness for claim C7 at a concrete input: a failing init propagates
its error out of construction, and a raising setup is folded into exit
code 1. -/
theorem claim_exception_propagation_witness :
    constructTask [] (fun _ => (Except.error "Forced init to fail"
        : Except String (List String))) = Except.error "Forced init to fail"
    ∧ execTask raisingTask noParams (fun _ => [])
      = ⟨true, Option.some 1, raisingTask.defaultOut⟩ :=
  ⟨claim_exception_propagation.1 (List String) [] _ "Forced init to fail" rfl,
   claim_exception_propagation.2.1 (List String) raisingTask noParams
     (fun _ => []) "Exception is raised" rfl⟩

/-- Claim C10: a newly constructed Pipeline already carries the built-in
parameters WORKING_DIR, BATCH_SIZE and VERBOSE in its parameter
registry, and run sets their values from its working_dir, batch_size
and verbose arguments, so a task bound to them observes the run-time
values during its execution (and the scenario run exits with status
0). -/
theorem claim_builtin_params :
    "WORKING_DIR" ∈ (Pipeline.new : MPipeline (List PyVal)).paramNames
    ∧ "BATCH_SIZE" ∈ (Pipeline.new : MPipeline (List PyVal)).paramNames
    ∧ "VERBOSE" ∈ (Pipeline.new : MPipeline (List PyVal)).paramNames
    ∧ ∀ (wd : String) (bs : Int) (v : Bool),
        ((builtinScenario.run PipelineFailure.DEFERRED wd bs v).1 1).output
          = [PyVal.str wd, PyVal.int bs, PyVal.bool v]
        ∧ (builtinScenario.run PipelineFailure.DEFERRED wd bs v).2 = 0 := by
  refine ⟨by decide, by decide, by decide, fun wd bs v => ⟨rfl, rfl⟩⟩

/-! ## Helper lemmas for registration and composition -/

theorem add_param_dup {α : Type} (ppl : MPipeline α) (n : String)
    (v : Option PyVal) (ty : Option (PyVal → Except String PyVal))
    (h : n ∈ ppl.paramNames) :
    ∃ e, ppl.add_param n v ty = Except.error e := by
  refine ⟨"KeyError: \x27" ++ n ++ "\x27 already defined", ?_⟩
  unfold MPipeline.add_param
  rw [if_pos (List.elem_iff.mpr h)]

theorem add_runner_dup {α : Type} (ppl : MPipeline α) (n : String)
    (h : n ∈ ppl.runners) :
    ∃ e, ppl.add_runner n = Except.error e := by
  refine ⟨"KeyError: \x27" ++ n ++ "\x27 already defined", ?_⟩
  unfold MPipeline.add_runner
  rw [if_pos (List.elem_iff.mpr h)]

theorem add_envmodules_dup {α : Type} (ppl : MPipeline α) (n : String)
    (h : n ∈ ppl.envmodules) :
    ∃ e, ppl.add_envmodules n = Except.error e := by
  refine ⟨"KeyError: \x27" ++ n ++ "\x27 already defined", ?_⟩
  unfold MPipeline.add_envmodules
  rw [if_pos (List.elem_iff.mpr h)]

theorem find?_append_of_none {α : Type} (l1 l2 : List α) (p : α → Bool)
    (h : ∀ x ∈ l1, p x = false) : (l1 ++ l2).find? p = l2.find? p := by
  induction l1 with
  | nil => rfl
  | cons a t ih =>
    rw [List.cons_append,
      List.find?_cons_of_neg _ (by rw [h a (List.mem_cons_self a t)]; simp),
      ih (fun x hx => h x (List.mem_cons_of_mem a hx))]

theorem find?_map_pred {α β : Type} (f : α → β) (q : β → Bool) :
    ∀ l : List α, (l.map f).find? q = (l.find? (fun x => q (f x))).map f := by
  intro l
  induction l with
  | nil => rfl
  | cons a t ih =>
    by_cases hq : q (f a) = true
    · rw [List.map_cons, List.find?_cons_of_pos _ hq,
        show (a :: t).find? (fun x => q (f x)) = Option.some a from
          List.find?_cons_of_pos _ hq]
      rfl
    · rw [List.map_cons, List.find?_cons_of_neg _ hq,
        show (a :: t).find? (fun x => q (f x)) = t.find? (fun x => q (f x)) from
          List.find?_cons_of_neg _ hq, ih]

/-- Claim C9: parameter, runner and environment-module names are each
unique per pipeline: registering a name a second time (whether the name
was present already, or was just added by a successful call) raises a
KeyError at the offending call; in the Except model the failing call
yields only the error, so the registry is left unchanged and the error
is never deferred into run. -/
theorem claim_duplicate_registration :
    (∀ (α : Type) (ppl ppl2 : MPipeline α) (n : String)
        (v v2 : Option PyVal) (ty ty2 : Option (PyVal → Except String PyVal)),
        (n ∈ ppl.paramNames → ∃ e, ppl.add_param n v ty = Except.error e)
        ∧ (ppl.add_param n v ty = Except.ok ppl2 →
            ∃ e, ppl2.add_param n v2 ty2 = Except.error e))
    ∧ (∀ (α : Type) (ppl ppl2 : MPipeline α) (n : String),
        (n ∈ ppl.runners → ∃ e, ppl.add_runner n = Except.error e)
        ∧ (ppl.add_runner n = Except.ok ppl2 →
            ∃ e, ppl2.add_runner n = Except.error e))
    ∧ (∀ (α : Type) (ppl ppl2 : MPipeline α) (n : String),
        (n ∈ ppl.envmodules → ∃ e, ppl.add_envmodules n = Except.error e)
        ∧ (ppl.add_envmodules n = Except.ok ppl2 →
            ∃ e, ppl2.add_envmodules n = Except.error e)) := by
  refine ⟨fun α ppl ppl2 n v v2 ty ty2 =>
            ⟨fun h => add_param_dup ppl n v ty h, fun h => ?_⟩,
          fun α ppl ppl2 n => ⟨fun h => add_runner_dup ppl n h, fun h => ?_⟩,
          fun α ppl ppl2 n => ⟨fun h => add_envmodules_dup ppl n h, fun h => ?_⟩⟩
  · unfold MPipeline.add_param at h
    split at h
    · cases h
    · injection h with h2
      subst h2
      exact add_param_dup _ n v2 ty2 (by simp [MPipeline.paramNames])
  · unfold MPipeline.add_runner at h
    split at h
    · cases h
    · injection h with h2
      subst h2
      exact add_runner_dup _ n (by simp)
  · unfold MPipeline.add_envmodules at h
    split at h
    · cases h
    · injection h with h2
      subst h2
      exact add_envmodules_dup _ n (by simp)

/-- Witness for claim C9 at a concrete input: registering the built-in
parameter name WORKING_DIR again on a fresh pipeline fails at the
call. -/
theorem claim_duplicate_registration_witness :
    ∃ e, ((Pipeline.new : MPipeline (List String)).add_param "WORKING_DIR"
      Option.none Option.none) = Except.error e :=
  (claim_duplicate_registration.1 (List String) Pipeline.new Pipeline.new
    "WORKING_DIR" Option.none Option.none Option.none Option.none).1
    (by decide)

/-- Claim C6: append_pipeline imports the other pipeline tasks, params,
runners and environment-module slots and makes every dependency-free
(root) task of the other pipeline depend on every terminal task (one no
task depends on) of this one, whereas merge_pipeline performs the same
slot import without adding any dependency edges, so roots of the other
pipeline stay dependency-free. -/
theorem claim_append_merge :
    ∀ (α : Type) (a b : MPipeline α) (i : Nat),
    (∀ p ∈ a.tasks, p.1.id ≠ i) →
    b.taskRequires i = Option.some [] →
    ((a.append_pipeline b).taskRequires i = Option.some a.terminalTaskIds
     ∧ (a.merge_pipeline b).taskRequires i = Option.some []
     ∧ (a.append_pipeline b).paramNames = a.paramNames ++ b.paramNames
     ∧ (a.append_pipeline b).runners = a.runners ++ b.runners
     ∧ (a.append_pipeline b).envmodules = a.envmodules ++ b.envmodules
     ∧ (a.merge_pipeline b).tasks = a.tasks ++ b.tasks) := by
  intro α a b i ha hb
  have hafalse : ∀ p ∈ a.tasks, ((fun p : MTask α × List Nat => p.1.id == i) p) = false := by
    intro p hp
    simpa using ha p hp
  obtain ⟨p0, hp0, hp02⟩ : ∃ p0, b.tasks.find? (fun p => p.1.id == i)
      = Option.some p0 ∧ p0.2 = [] := by
    unfold MPipeline.taskRequires at hb
    cases hf : b.tasks.find? (fun p => p.1.id == i) with
    | none => rw [hf] at hb; cases hb
    | some p0 =>
      rw [hf] at hb
      exact ⟨p0, rfl, by simpa using hb⟩
  refine ⟨?_, ?_, by simp [MPipeline.append_pipeline, MPipeline.paramNames],
    rfl, rfl, rfl⟩
  · unfold MPipeline.taskRequires MPipeline.append_pipeline
    rw [find?_append_of_none _ _ _ hafalse]
    rw [find?_map_pred]
    have hpred : (fun p : MTask α × List Nat =>
        ((if p.2.isEmpty then (p.1, a.terminalTaskIds) else p).1.id == i))
        = (fun p : MTask α × List Nat => (p.1.id == i)) := by
      funext p
      by_cases he : p.2.isEmpty <;> simp [he]
    rw [hpred, hp0]
    simp [hp02]
  · unfold MPipeline.taskRequires MPipeline.merge_pipeline
    rw [find?_append_of_none _ _ _ hafalse, hp0]
    simp [hp02]

/-- Witness for claim C6 at a concrete input: pipeline A is a1→a2,
pipeline B the single root b1; appending B to A makes b1 depend on the
terminal task a2 of A, merging leaves b1 dependency-free, and both
operations import the params and runners of both pipelines. -/
theorem claim_append_merge_witness :
    (pipelineA.append_pipeline pipelineB).taskRequires 3
      = Option.some pipelineA.terminalTaskIds
    ∧ (pipelineA.merge_pipeline pipelineB).taskRequires 3 = Option.some []
    ∧ (pipelineA.append_pipeline pipelineB).paramNames
      = pipelineA.paramNames ++ pipelineB.paramNames
    ∧ (pipelineA.append_pipeline pipelineB).runners
      = pipelineA.runners ++ pipelineB.runners
    ∧ (pipelineA.append_pipeline pipelineB).envmodules
      = pipelineA.envmodules ++ pipelineB.envmodules
    ∧ (pipelineA.merge_pipeline pipelineB).tasks
      = pipelineA.tasks ++ pipelineB.tasks :=
  claim_append_merge (List String) pipelineA pipelineB 3
    (by decide) (by decide)

/-! ## Helper lemmas for rank_tasks -/

theorem contains_false_iff (l : List Nat) (a : Nat) :
    l.contains a = false ↔ a ∉ l := by
  constructor
  · intro h hm
    unfold List.contains at h
    rw [List.elem_iff.mpr hm] at h
    cases h
  · intro h
    cases hc : l.contains a with
    | false => rfl
    | true => exact absurd (List.elem_iff.mp hc) h

theorem nodup_key_eq {g : List (Nat × List Nat)}
    (hnd : (g.map Prod.fst).Nodup) {i : Nat} {ds ds2 : List Nat}
    (h1 : (i, ds) ∈ g) (h2 : (i, ds2) ∈ g) : ds = ds2 := by
  induction g with
  | nil => cases h1
  | cons a t ih =>
    rw [List.map_cons] at hnd
    have hna := (List.nodup_cons.mp hnd).1
    have hnt := (List.nodup_cons.mp hnd).2
    cases List.mem_cons.mp h1 with
    | inl he1 =>
      cases List.mem_cons.mp h2 with
      | inl he2 =>
        have hee := he1.trans he2.symm
        injection hee with hee1 hee2
      | inr hm2 =>
        exfalso
        apply hna
        rw [← he1]
        exact List.mem_map.mpr ⟨(i, ds2), hm2, rfl⟩
    | inr hm1 =>
      cases List.mem_cons.mp h2 with
      | inl he2 =>
        exfalso
        apply hna
        rw [← he2]
        exact List.mem_map.mpr ⟨(i, ds), hm1, rfl⟩
      | inr hm2 => exact ih hnt hm1 hm2

theorem mem_nextRank {g : List (Nat × List Nat)} {assigned : List Nat}
    {i : Nat} :
    i ∈ nextRank g assigned ↔
    ∃ ds, (i, ds) ∈ g ∧ assigned.contains i = false
      ∧ ∀ d ∈ ds, assigned.contains d = true := by
  unfold nextRank
  constructor
  · intro hm
    obtain ⟨p, hp, hpi⟩ := List.mem_map.mp hm
    have hmem : p ∈ g := List.mem_of_mem_filter hp
    have hpred := List.of_mem_filter hp
    rw [Bool.and_eq_true, Bool.not_eq_true', List.all_eq_true] at hpred
    refine ⟨p.2, ?_, ?_, hpred.2⟩
    · rw [← hpi]
      exact hmem
    · rw [← hpi]
      exact hpred.1
  · rintro ⟨ds, hmem, hci, hds⟩
    refine List.mem_map.mpr ⟨(i, ds), List.mem_filter.mpr ⟨hmem, ?_⟩, rfl⟩
    rw [Bool.and_eq_true, Bool.not_eq_true', List.all_eq_true]
    exact ⟨hci, hds⟩

theorem nextRank_sublist (g : List (Nat × List Nat)) (assigned : List Nat) :
    List.Sublist (nextRank g assigned) (g.map Prod.fst) :=
  List.Sublist.map Prod.fst (List.filter_sublist g)

theorem nextRank_nodup {g : List (Nat × List Nat)}
    (hnd : (g.map Prod.fst).Nodup) (assigned : List Nat) :
    (nextRank g assigned).Nodup :=
  List.Nodup.sublist (nextRank_sublist g assigned) hnd

theorem rankOf_eq_some_of_mem :
    ∀ (ranks : List (List Nat)) (k : Nat) (r : List Nat) (i : Nat),
    ranks.get? k = Option.some r → i ∈ r →
    (∀ j rj, j < k → ranks.get? j = Option.some rj → i ∉ rj) →
    rankOf ranks i = Option.some k := by
  intro ranks
  induction ranks with
  | nil => intro k r i h; cases h
  | cons r0 rest ih =>
    intro k r i hk hi hlt
    cases k with
    | zero =>
      have hr : r0 = r := by injection hk
      unfold rankOf
      rw [if_pos (List.elem_iff.mpr (hr ▸ hi))]
    | succ k =>
      have h0 : i ∉ r0 := hlt 0 r0 (Nat.succ_pos k) rfl
      unfold rankOf
      rw [if_neg (by rw [(contains_false_iff r0 i).mpr h0]; simp),
        ih k r i hk hi (fun j rj hj hg => hlt (j + 1) rj (Nat.succ_lt_succ hj) hg)]
      rfl

theorem rankOf_mem_of_eq_some :
    ∀ (ranks : List (List Nat)) (i k : Nat),
    rankOf ranks i = Option.some k →
    ∃ r, ranks.get? k = Option.some r ∧ i ∈ r := by
  intro ranks
  induction ranks with
  | nil => intro i k h; cases h
  | cons r0 rest ih =>
    intro i k h
    unfold rankOf at h
    by_cases hc : r0.contains i = true
    · rw [if_pos hc] at h
      have hk : k = 0 := by injection h with h2; exact h2.symm
      subst hk
      exact ⟨r0, rfl, List.elem_iff.mp hc⟩
    · rw [if_neg hc] at h
      cases hr : rankOf rest i with
      | none => rw [hr] at h; cases h
      | some k2 =>
        rw [hr] at h
        have hk : k = k2 + 1 := by injection h with h2; exact h2.symm
        subst hk
        exact ih i k2 hr

theorem isEmpty_false_ne_nil {l : List Nat} (h : l.isEmpty = false) : l ≠ [] := by
  intro he
  rw [he] at h
  cases h

theorem bool_not_true_eq_false {b : Bool} (h : ¬ b = true) : b = false := by
  cases b
  · rfl
  · exact absurd rfl h

theorem rankTasksAux_get? (g : List (Nat × List Nat)) :
    ∀ (fuel : Nat) (assigned : List Nat) (k : Nat) (r : List Nat),
    (rankTasksAux g fuel assigned).get? k = Option.some r →
    r = nextRank g (assigned ++ ((rankTasksAux g fuel assigned).take k).flatten)
    ∧ r ≠ [] := by
  intro fuel
  induction fuel with
  | zero =>
    intro assigned k r h
    cases h
  | succ fuel ih =>
    intro assigned k r h
    unfold rankTasksAux at h ⊢
    by_cases he : (nextRank g assigned).isEmpty = true
    · rw [if_pos he] at h
      simp at h
    · rw [if_neg he] at h ⊢
      cases k with
      | zero =>
        have hr : nextRank g assigned = r := by
          rw [List.get?_cons_zero] at h
          injection h
        simp only [List.take_zero, List.flatten_nil, List.append_nil]
        refine ⟨hr.symm, fun hnil => ?_⟩
        exact isEmpty_false_ne_nil (bool_not_true_eq_false he) (hr.symm ▸ hnil)
      | succ k =>
        rw [List.get?_cons_succ] at h
        have h2 := ih (assigned ++ nextRank g assigned) k r h
        rw [List.take_succ_cons, List.flatten_cons, ← List.append_assoc]
        exact h2

theorem rankTasksAux_join_unassigned (g : List (Nat × List Nat)) :
    ∀ (fuel : Nat) (assigned : List Nat) (i : Nat),
    i ∈ (rankTasksAux g fuel assigned).flatten →
    assigned.contains i = false ∧ i ∈ g.map Prod.fst := by
  intro fuel
  induction fuel with
  | zero =>
    intro assigned i h
    cases h
  | succ fuel ih =>
    intro assigned i h
    unfold rankTasksAux at h
    by_cases he : (nextRank g assigned).isEmpty = true
    · rw [if_pos he] at h
      cases h
    · rw [if_neg he, List.flatten_cons] at h
      cases List.mem_append.mp h with
      | inl hl =>
        obtain ⟨ds, hmem, hci, _⟩ := mem_nextRank.mp hl
        exact ⟨hci, List.mem_map.mpr ⟨(i, ds), hmem, rfl⟩⟩
      | inr hr =>
        obtain ⟨hc2, hids⟩ := ih (assigned ++ nextRank g assigned) i hr
        refine ⟨?_, hids⟩
        rw [contains_false_iff] at hc2 ⊢
        intro hm
        exact hc2 (List.mem_append.mpr (Or.inl hm))

theorem rankTasksAux_join_nodup (g : List (Nat × List Nat))
    (hnd : (g.map Prod.fst).Nodup) :
    ∀ (fuel : Nat) (assigned : List Nat),
    ((rankTasksAux g fuel assigned).flatten).Nodup := by
  intro fuel
  induction fuel with
  | zero =>
    intro assigned
    exact List.nodup_nil
  | succ fuel ih =>
    intro assigned
    unfold rankTasksAux
    by_cases he : (nextRank g assigned).isEmpty = true
    · rw [if_pos he]
      exact List.nodup_nil
    · rw [if_neg he, List.flatten_cons, List.nodup_append]
      refine ⟨nextRank_nodup hnd assigned, ih (assigned ++ nextRank g assigned), ?_⟩
      intro a ha hjoin
      have h2 := (rankTasksAux_join_unassigned g fuel
        (assigned ++ nextRank g assigned) a hjoin).1
      rw [contains_false_iff] at h2
      exact h2 (List.mem_append.mpr (Or.inr ha))

theorem length_filter_mono {α : Type} (p q : α → Bool) :
    ∀ l : List α, (∀ x ∈ l, q x = true → p x = true) →
    (l.filter q).length ≤ (l.filter p).length := by
  intro l
  induction l with
  | nil => intro _; exact Nat.le_refl 0
  | cons a t ih =>
    intro himp
    have iht := ih (fun x hx => himp x (List.mem_cons_of_mem a hx))
    by_cases hq : q a = true
    · rw [List.filter_cons_of_pos hq,
        List.filter_cons_of_pos (himp a (List.mem_cons_self a t) hq)]
      exact Nat.succ_le_succ iht
    · rw [List.filter_cons_of_neg hq]
      by_cases hp : p a = true
      · rw [List.filter_cons_of_pos hp]
        exact Nat.le_succ_of_le iht
      · rw [List.filter_cons_of_neg hp]
        exact iht

theorem length_filter_lt {α : Type} (p q : α → Bool) :
    ∀ l : List α, (∀ x ∈ l, q x = true → p x = true) →
    ∀ x0, x0 ∈ l → p x0 = true → q x0 = false →
    (l.filter q).length < (l.filter p).length := by
  intro l
  induction l with
  | nil =>
    intro _ x0 hx0
    cases hx0
  | cons a t ih =>
    intro himp x0 hx0 hp hq
    have himpt : ∀ x ∈ t, q x = true → p x = true :=
      fun x hx => himp x (List.mem_cons_of_mem a hx)
    cases List.mem_cons.mp hx0 with
    | inl he =>
      subst he
      rw [List.filter_cons_of_pos hp, List.filter_cons_of_neg (by rw [hq]; simp)]
      exact Nat.lt_succ_of_le (length_filter_mono p q t himpt)
    | inr hmt =>
      by_cases hqa : q a = true
      · rw [List.filter_cons_of_pos hqa,
          List.filter_cons_of_pos (himp a (List.mem_cons_self a t) hqa)]
        exact Nat.succ_lt_succ (ih himpt x0 hmt hp hq)
      · rw [List.filter_cons_of_neg hqa]
        by_cases hpa : p a = true
        · rw [List.filter_cons_of_pos hpa]
          exact Nat.lt_succ_of_lt (ih himpt x0 hmt hp hq)
        · rw [List.filter_cons_of_neg hpa]
          exact ih himpt x0 hmt hp hq

theorem nextRank_progress (g : List (Nat × List Nat)) (f : Nat → Nat)
    (hcl : ∀ p ∈ g, ∀ d ∈ p.2, d ∈ g.map Prod.fst)
    (hac : ∀ p ∈ g, ∀ d ∈ p.2, f d < f p.1) (assigned : List Nat)
    (hne : ∃ p ∈ g, assigned.contains p.1 = false) :
    (nextRank g assigned).isEmpty = false := by
  obtain ⟨pw, hpw, hcw⟩ := hne
  have hlne : g.filter (fun p => !(assigned.contains p.1)) ≠ [] := by
    intro hnil
    have : pw ∈ g.filter (fun p => !(assigned.contains p.1)) :=
      List.mem_filter.mpr ⟨hpw, by rw [hcw]; rfl⟩
    rw [hnil] at this
    cases this
  obtain ⟨m, hm, hmin⟩ : ∃ m ∈ g.filter (fun p => !(assigned.contains p.1)),
      ∀ b ∈ g.filter (fun p => !(assigned.contains p.1)), f m.1 ≤ f b.1 := by
    cases harg : (g.filter (fun p => !(assigned.contains p.1))).argmin
        (fun p => f p.1) with
    | none => exact absurd (List.argmin_eq_none.mp harg) hlne
    | some m =>
      have hmm : m ∈ (g.filter (fun p => !(assigned.contains p.1))).argmin
          (fun p => f p.1) := by rw [harg]; rfl
      refine ⟨m, List.argmin_mem hmm, fun b hb => ?_⟩
      have hle := List.le_of_mem_argmin hb hmm
      exact hle
  have hmg : m ∈ g := List.mem_of_mem_filter hm
  have hmc : assigned.contains m.1 = false := by
    have := List.of_mem_filter hm
    rw [Bool.not_eq_true'] at this
    exact this
  have hdeps : ∀ d ∈ m.2, assigned.contains d = true := by
    intro d hd
    by_contra hcd
    have hcdf : assigned.contains d = false := bool_not_true_eq_false hcd
    obtain ⟨q, hq, hq1⟩ := List.mem_map.mp (hcl m hmg d hd)
    have hqf : q ∈ g.filter (fun p => !(assigned.contains p.1)) :=
      List.mem_filter.mpr ⟨hq, by rw [hq1, hcdf]; rfl⟩
    have hle := hmin q hqf
    rw [hq1] at hle
    exact Nat.not_lt.mpr hle (hac m hmg d hd)
  have hmem : m.1 ∈ nextRank g assigned :=
    mem_nextRank.mpr ⟨m.2, by rw [Prod.mk.eta]; exact hmg, hmc, hdeps⟩
  cases hie : (nextRank g assigned).isEmpty with
  | false => rfl
  | true =>
    rw [List.isEmpty_iff] at hie
    rw [hie] at hmem
    cases hmem

theorem rankTasksAux_covers (g : List (Nat × List Nat)) (f : Nat → Nat)
    (hcl : ∀ p ∈ g, ∀ d ∈ p.2, d ∈ g.map Prod.fst)
    (hac : ∀ p ∈ g, ∀ d ∈ p.2, f d < f p.1) :
    ∀ (fuel : Nat) (assigned : List Nat),
    (g.filter (fun p => !(assigned.contains p.1))).length ≤ fuel →
    ∀ p ∈ g, assigned.contains p.1 = true
      ∨ p.1 ∈ (rankTasksAux g fuel assigned).flatten := by
  intro fuel
  induction fuel with
  | zero =>
    intro assigned hlen p hp
    left
    by_contra hc
    have hcf : assigned.contains p.1 = false := bool_not_true_eq_false hc
    have hpf : p ∈ g.filter (fun q => !(assigned.contains q.1)) :=
      List.mem_filter.mpr ⟨hp, by rw [hcf]; rfl⟩
    rw [Nat.le_zero, List.length_eq_zero] at hlen
    rw [hlen] at hpf
    cases hpf
  | succ fuel ih =>
    intro assigned hlen p hp
    by_cases hca : assigned.contains p.1 = true
    · exact Or.inl hca
    have hcaf : assigned.contains p.1 = false := bool_not_true_eq_false hca
    have hprog : (nextRank g assigned).isEmpty = false :=
      nextRank_progress g f hcl hac assigned ⟨p, hp, hcaf⟩
    unfold rankTasksAux
    rw [if_neg (by rw [hprog]; simp), List.flatten_cons]
    by_cases hnx : p.1 ∈ nextRank g assigned
    · exact Or.inr (List.mem_append.mpr (Or.inl hnx))
    -- the witness element showing the unassigned count strictly drops
    obtain ⟨i0, hi0⟩ :=
      List.exists_mem_of_ne_nil _ (isEmpty_false_ne_nil hprog)
    obtain ⟨ds0, hds0, hci0, _⟩ := mem_nextRank.mp hi0
    have hlen2 : (g.filter
        (fun q => !((assigned ++ nextRank g assigned).contains q.1))).length ≤ fuel := by
      have hstrict := length_filter_lt
        (fun q => !(assigned.contains q.1))
        (fun q => !((assigned ++ nextRank g assigned).contains q.1)) g
        (by
          intro x hx hq
          rw [Bool.not_eq_true'] at hq ⊢
          rw [contains_false_iff] at hq ⊢
          intro hmx
          exact hq (List.mem_append.mpr (Or.inl hmx)))
        (i0, ds0) hds0
        (by simp [(contains_false_iff assigned i0).mp hci0])
        (by
          rw [Bool.not_eq_false']
          exact List.elem_iff.mpr (List.mem_append.mpr (Or.inr hi0)))
      exact Nat.lt_succ_iff.mp (Nat.lt_of_lt_of_le hstrict hlen)
    cases ih (assigned ++ nextRank g assigned) hlen2 p hp with
    | inl hin =>
      exfalso
      have := List.elem_iff.mp hin
      cases List.mem_append.mp this with
      | inl h1 => exact (contains_false_iff assigned p.1).mp hcaf h1
      | inr h2 => exact hnx h2
    | inr hin => exact Or.inr (List.mem_append.mpr (Or.inr hin))

theorem rank_tasks_get? (g : List (Nat × List Nat)) (k : Nat) (r : List Nat)
    (h : (rank_tasks g).get? k = Option.some r) :
    r = nextRank g (((rank_tasks g).take k).flatten) ∧ r ≠ [] := by
  have h2 := rankTasksAux_get? g g.length [] k r h
  rwa [List.nil_append] at h2

theorem mem_take_flatten_get? (ranks : List (List Nat)) (k d : Nat)
    (h : d ∈ (ranks.take k).flatten) :
    ∃ j rj, j < k ∧ ranks.get? j = Option.some rj ∧ d ∈ rj := by
  obtain ⟨rj, hrj, hd⟩ := List.mem_flatten.mp h
  obtain ⟨j, hj⟩ := List.mem_iff_get?.mp hrj
  have hjk : j < k := by
    obtain ⟨hlen, _⟩ := List.get?_eq_some.mp hj
    have hle : (ranks.take k).length ≤ k := by
      rw [List.length_take]
      exact Nat.min_le_left k ranks.length
    exact Nat.lt_of_lt_of_le hlen hle
  refine ⟨j, rj, hjk, ?_, hd⟩
  rw [← List.get?_take hjk]
  exact hj

theorem rank_tasks_rankOf_at (g : List (Nat × List Nat)) (k : Nat)
    (rk : List Nat) (d : Nat) (hgk : (rank_tasks g).get? k = Option.some rk)
    (hd : d ∈ rk) : rankOf (rank_tasks g) d = Option.some k := by
  apply rankOf_eq_some_of_mem _ k rk d hgk hd
  intro j rj hjk hgj hdm
  obtain ⟨hchar, _⟩ := rank_tasks_get? g k rk hgk
  have hnc : (((rank_tasks g).take k).flatten).contains d = false := by
    obtain ⟨_, _, hc, _⟩ := mem_nextRank.mp (hchar ▸ hd)
    exact hc
  rw [contains_false_iff] at hnc
  apply hnc
  have h2 : ((rank_tasks g).take k).get? j = Option.some rj := by
    rw [List.get?_take hjk]
    exact hgj
  exact List.mem_flatten.mpr ⟨rj, List.get?_mem h2, hdm⟩

theorem mem_flatten_rankOf :
    ∀ (ranks : List (List Nat)) (i : Nat), i ∈ ranks.flatten →
    ∃ k, rankOf ranks i = Option.some k := by
  intro ranks
  induction ranks with
  | nil =>
    intro i h
    cases h
  | cons r rest ih =>
    intro i h
    by_cases hc : r.contains i = true
    · exact ⟨0, by unfold rankOf; rw [if_pos hc]⟩
    · rw [List.flatten_cons] at h
      cases List.mem_append.mp h with
      | inl h1 => exact absurd (List.elem_iff.mpr h1) hc
      | inr h2 =>
        obtain ⟨k, hk⟩ := ih i h2
        exact ⟨k + 1, by unfold rankOf; rw [if_neg hc, hk]; rfl⟩

theorem rank_tasks_partition (g : List (Nat × List Nat)) (f : Nat → Nat)
    (hnd : (g.map Prod.fst).Nodup)
    (hcl : ∀ p ∈ g, ∀ d ∈ p.2, d ∈ g.map Prod.fst)
    (hac : ∀ p ∈ g, ∀ d ∈ p.2, f d < f p.1) :
    (rank_tasks g).flatten.Nodup
    ∧ ∀ i, i ∈ (rank_tasks g).flatten ↔ i ∈ g.map Prod.fst := by
  constructor
  · exact rankTasksAux_join_nodup g hnd g.length []
  · intro i
    constructor
    · intro h
      exact (rankTasksAux_join_unassigned g g.length [] i h).2
    · intro h
      obtain ⟨p, hp, hpi⟩ := List.mem_map.mp h
      have hflt : g.filter (fun q => !(([] : List Nat).contains q.1)) = g :=
        List.filter_eq_self.mpr (fun x _ => rfl)
      have hcov := rankTasksAux_covers g f hcl hac g.length []
        (by rw [hflt]) p hp
      cases hcov with
      | inl h1 => cases h1
      | inr h2 =>
        rw [← hpi]
        exact h2

theorem rank_tasks_rank0 (g : List (Nat × List Nat)) (i : Nat) :
    i ∈ (rank_tasks g).headD [] ↔ (i, []) ∈ g := by
  cases g with
  | nil =>
    constructor
    · intro h
      cases h
    · intro h
      cases h
  | cons p t =>
    show i ∈ (rankTasksAux (p :: t) (t.length + 1) []).headD [] ↔ _
    unfold rankTasksAux
    by_cases he : (nextRank (p :: t) []).isEmpty = true
    · rw [if_pos he]
      constructor
      · intro h
        cases h
      · intro h
        exfalso
        have hm : i ∈ nextRank (p :: t) [] :=
          mem_nextRank.mpr ⟨[], h, rfl, fun d hd => by cases hd⟩
        rw [List.isEmpty_iff] at he
        rw [he] at hm
        cases hm
    · rw [if_neg he]
      show i ∈ nextRank (p :: t) [] ↔ _
      constructor
      · intro h
        obtain ⟨ds, hds, _, hall⟩ := mem_nextRank.mp h
        have hds0 : ds = [] := by
          cases hdsc : ds with
          | nil => rfl
          | cons d rest =>
            have hcd := hall d (by rw [hdsc]; exact List.mem_cons_self d rest)
            cases hcd
        rw [hds0] at hds
        exact hds
      · intro h
        exact mem_nextRank.mpr ⟨[], h, rfl, fun d hd => by cases hd⟩

theorem rank_tasks_ranked_facts (g : List (Nat × List Nat)) (f : Nat → Nat)
    (hnd : (g.map Prod.fst).Nodup)
    (hcl : ∀ p ∈ g, ∀ d ∈ p.2, d ∈ g.map Prod.fst)
    (hac : ∀ p ∈ g, ∀ d ∈ p.2, f d < f p.1) :
    ∀ p ∈ g, ∀ k, rankOf (rank_tasks g) p.1 = Option.some k →
      (∀ d ∈ p.2, ∃ j, rankOf (rank_tasks g) d = Option.some j ∧ j < k)
      ∧ (∀ m, k = m + 1 → ∃ d ∈ p.2, rankOf (rank_tasks g) d = Option.some m) := by
  intro p hp k hk
  obtain ⟨rk, hgk, hmem⟩ := rankOf_mem_of_eq_some _ _ _ hk
  obtain ⟨hchar, hne⟩ := rank_tasks_get? g k rk hgk
  have hmem2 : p.1 ∈ nextRank g (((rank_tasks g).take k).flatten) :=
    hchar ▸ hmem
  obtain ⟨ds, hds, hcp, hdall⟩ := mem_nextRank.mp hmem2
  have hdseq : ds = p.2 := nodup_key_eq hnd hds (by rw [Prod.mk.eta]; exact hp)
  constructor
  · intro d hd
    have hdc := hdall d (by rw [hdseq]; exact hd)
    have hdin : d ∈ ((rank_tasks g).take k).flatten := List.elem_iff.mp hdc
    obtain ⟨j, rj, hjk, hgj, hdrj⟩ := mem_take_flatten_get? _ _ _ hdin
    exact ⟨j, rank_tasks_rankOf_at g j rj d hgj hdrj, hjk⟩
  · intro m hkm
    subst hkm
    obtain ⟨rm, hgm⟩ : ∃ rm, (rank_tasks g).get? m = Option.some rm := by
      obtain ⟨hlen, _⟩ := List.get?_eq_some.mp hgk
      have hltm : m < (rank_tasks g).length := Nat.lt_of_succ_lt hlen
      exact ⟨(rank_tasks g).get ⟨m, hltm⟩, List.get?_eq_get hltm⟩
    obtain ⟨hcharm, _⟩ := rank_tasks_get? g m rm hgm
    have hgm2 : (rank_tasks g)[m]? = Option.some rm := by
      rw [← List.get?_eq_getElem?]
      exact hgm
    have htake : ((rank_tasks g).take (m + 1)).flatten
        = ((rank_tasks g).take m).flatten ++ rm := by
      rw [List.take_succ, hgm2]
      simp
    by_cases hex : ∃ d ∈ p.2, d ∈ rm
    · obtain ⟨d, hd, hdrm⟩ := hex
      exact ⟨d, hd, rank_tasks_rankOf_at g m rm d hgm hdrm⟩
    · exfalso
      push_neg at hex
      have hdall2 : ∀ d ∈ p.2,
          (((rank_tasks g).take m).flatten).contains d = true := by
        intro d hd
        have hdc := hdall d (by rw [hdseq]; exact hd)
        have hdin : d ∈ ((rank_tasks g).take (m + 1)).flatten :=
          List.elem_iff.mp hdc
        rw [htake] at hdin
        cases List.mem_append.mp hdin with
        | inl h1 => exact List.elem_iff.mpr h1
        | inr h2 => exact absurd h2 (hex d hd)
      have hcp2 : (((rank_tasks g).take m).flatten).contains p.1 = false := by
        rw [contains_false_iff] at hcp ⊢
        intro hm2
        apply hcp
        rw [htake]
        exact List.mem_append.mpr (Or.inl hm2)
      have hpm : p.1 ∈ nextRank g (((rank_tasks g).take m).flatten) :=
        mem_nextRank.mpr ⟨p.2, (by rw [Prod.mk.eta]; exact hp), hcp2, hdall2⟩
      rw [← hcharm] at hpm
      rw [contains_false_iff] at hcp
      apply hcp
      rw [htake]
      exact List.mem_append.mpr (Or.inr hpm)

/-- Claim C4: for every pipeline whose dependency graph is acyclic
(certified here by a measure f strictly decreasing along dependency
edges, task ids unique and dependencies registered), rank_tasks assigns
each registered task exactly one rank (the ranks partition the task
set: their concatenation is duplicate-free and covers exactly the task
ids), rank 0 is exactly the set of tasks with no dependency, every
dependency of a rank-k task has a rank strictly below k, and a task of
rank m+1 has at least one dependency of rank m. -/
theorem claim_rank_tasks_spec {α : Type} (ppl : MPipeline α) (f : Nat → Nat)
    (hnd : (ppl.depGraph.map Prod.fst).Nodup)
    (hcl : ∀ p ∈ ppl.depGraph, ∀ d ∈ p.2, d ∈ ppl.depGraph.map Prod.fst)
    (hac : ∀ p ∈ ppl.depGraph, ∀ d ∈ p.2, f d < f p.1) :
    ((ppl.rank_tasks).flatten.Nodup
      ∧ (∀ i, i ∈ (ppl.rank_tasks).flatten ↔ i ∈ ppl.depGraph.map Prod.fst))
    ∧ (∀ p ∈ ppl.depGraph, ∃ k, rankOf ppl.rank_tasks p.1 = Option.some k)
    ∧ (∀ i, i ∈ (ppl.rank_tasks).headD [] ↔ (i, []) ∈ ppl.depGraph)
    ∧ (∀ p ∈ ppl.depGraph, ∀ k, rankOf ppl.rank_tasks p.1 = Option.some k →
        (∀ d ∈ p.2, ∃ j, rankOf ppl.rank_tasks d = Option.some j ∧ j < k)
        ∧ (∀ m, k = m + 1 →
            ∃ d ∈ p.2, rankOf ppl.rank_tasks d = Option.some m)) := by
  have hpart := rank_tasks_partition ppl.depGraph f hnd hcl hac
  refine ⟨hpart, ?_, rank_tasks_rank0 ppl.depGraph,
    rank_tasks_ranked_facts ppl.depGraph f hnd hcl hac⟩
  intro p hp
  apply mem_flatten_rankOf
  exact (hpart.2 p.1).mpr (List.mem_map.mpr ⟨p, hp, rfl⟩)

/-- Witness for claim C4 at a concrete input: the four-task ranking
scenario (1; 2 and 3 after 1; 4 after 3) with the identity measure
certifying acyclicity; the theorem assigns task 4 a rank. -/
theorem claim_rank_tasks_spec_witness :
    ∃ k, rankOf (rankScenario.rank_tasks) 4 = Option.some k :=
  (claim_rank_tasks_spec rankScenario (fun i => i) (by decide) (by decide)
    (by decide)).2.1 (4, [3]) (by decide)

/-- Witness for claim C5 at a concrete input: set records the raw value
on an untyped parameter. -/
theorem claim_param_lazy_coercion_witness :
    (({} : PipelineParam).set (PyVal.int 5)).value_raw
      = Option.some (PyVal.int 5) :=
  claim_param_lazy_coercion.2.2.2 {} (PyVal.int 5)

/-- Witness for claim C10 at a concrete input: the OutputValues task
observes the run arguments through the built-in parameters. -/
theorem claim_builtin_params_witness :
    ((builtinScenario.run PipelineFailure.DEFERRED "/tmp" 100 true).1 1).output
      = [PyVal.str "/tmp", PyVal.int 100, PyVal.bool true] :=
  (claim_builtin_params.2.2.2 "/tmp" 100 true).1

end Pipeliner
